import Mathlib

/- Verification of the EHR999 indicator pipeline (app.py): series
acquisition, adaptive-window oscillator computation, market-band
classification and the report header/table.  Floating-point columns are
modelled as exact rationals extended with the IEEE special values (NaN and
the signed infinities): every concrete value appearing in the claims is
exactly representable, and the zero / NaN / infinity case analysis of the
source is preserved. -/

/-- An IEEE-754 double as held by the pandas columns: an exact finite
value, NaN, or a signed infinity. -/
inductive FVal where
  | fin (q : ℚ)
  | nan
  | pinf
  | ninf
deriving DecidableEq, Repr

namespace FVal

/-- pd.notna: everything except NaN counts as present. -/
def notna : FVal → Bool
  | nan => false
  | _ => true

/-- A value is finite when it is neither NaN nor an infinity. -/
def isFinite : FVal → Bool
  | fin _ => true
  | _ => false

/-- IEEE division as performed on the float columns (numpy semantics:
x/0 is a signed infinity for x ≠ 0 and NaN for 0/0; no exception). -/
def div : FVal → FVal → FVal
  | nan, _ => nan
  | _, nan => nan
  | fin a, fin b =>
      if b = 0 then (if a = 0 then nan else if 0 < a then pinf else ninf)
      else fin (a / b)
  | fin _, pinf => fin 0
  | fin _, ninf => fin 0
  | pinf, fin b => if 0 ≤ b then pinf else ninf
  | ninf, fin b => if 0 ≤ b then ninf else pinf
  | pinf, _ => nan
  | ninf, _ => nan

/-- IEEE multiplication as performed on the float columns. -/
def mul : FVal → FVal → FVal
  | nan, _ => nan
  | _, nan => nan
  | fin a, fin b => fin (a * b)
  | fin a, pinf => if a = 0 then nan else if 0 < a then pinf else ninf
  | fin a, ninf => if a = 0 then nan else if 0 < a then ninf else pinf
  | pinf, fin b => if b = 0 then nan else if 0 < b then pinf else ninf
  | ninf, fin b => if b = 0 then nan else if 0 < b then ninf else pinf
  | pinf, pinf => pinf
  | pinf, ninf => ninf
  | ninf, pinf => ninf
  | ninf, ninf => pinf

end FVal

/-- One parsed kline row: the fields fetch_eth_klines converts with
astype(float), with open_time kept as the epoch-millisecond integer.  The
remaining upstream fields carry no weight and are dropped. -/
structure Bar where
  open_time : Int
  open_price : ℚ
  high : ℚ
  low : ℚ
  close : ℚ
  volume : ℚ
deriving DecidableEq, Repr

instance : Inhabited Bar := ⟨⟨0, 0, 0, 0, 0, 0⟩⟩

/-- ma_window: `min(50, data_length // 4)` below 200 rows, else 200. -/
def shortWindow (N : Nat) : Nat :=
  if N < 200 then min 50 (N / 4) else 200

/-- max_long_window = int(len(df) * 0.6).  For every series length in the
usable range the float product N * 0.6 has the same integer part as
3 * N / 5 (the relative rounding error of the product is below 1.2e-16,
far too small to cross an integer boundary), so the truncation is modelled
exactly on naturals. -/
def maxLongWindow (N : Nat) : Nat := 3 * N / 5

/-- long_window = min(ma_window * 7, max_long_window) followed by the clamp
`if long_window < ma_window + 50: long_window = min(ma_window + 50, len(df) - 10)`.
Python's subtraction can go negative, hence the Int result. -/
def longWindow (N : Nat) : Int :=
  if min (shortWindow N * 7) (maxLongWindow N) < shortWindow N + 50 then
    min ((shortWindow N : Int) + 50) ((N : Int) - 10)
  else (min (shortWindow N * 7) (maxLongWindow N) : Int)

/-- The trailing window of width w ending at index i, as read by
rolling(w).mean(). -/
def windowSlice (w i : Nat) (xs : List ℚ) : List ℚ :=
  (xs.take (i + 1)).drop (i + 1 - w)

/-- Series.rolling(window=w).mean() on a finite float column: NaN until a
full window is available (in particular everywhere when w = 0 or when w
exceeds the length), otherwise the arithmetic mean of the trailing w
values. -/
def rollingMean (w : Nat) (xs : List ℚ) : List FVal :=
  (List.range xs.length).map fun i =>
    if w = 0 ∨ i + 1 < w then FVal.nan
    else FVal.fin ((windowSlice w i xs).sum / (w : ℚ))

/-- The message pandas raises when a rolling window is negative. -/
def windowNegErr : String := "window must be an integer 0 or greater"

/-- One row of the frame calculate_ehr999 returns. -/
structure CalcRow where
  open_time : Int
  close : ℚ
  ma200 : FVal
  ma_long : FVal
  ehr999 : FVal
deriving DecidableEq, Repr

/-- The df['EHR999'] entry at index i: (close / MA200) * (close / MA_long). -/
def ehrValue (closes : List ℚ) (ma200 maLong : List FVal) (i : Nat) : FVal :=
  ((FVal.fin (closes.getD i 0)).div (ma200.getD i FVal.nan)).mul
    ((FVal.fin (closes.getD i 0)).div (maLong.getD i FVal.nan))

/-- calculate_ehr999: adaptive windows, the two rolling means, the
oscillator column, then dropna(subset=['EHR999']) — which removes NaN rows
only.  A negative long window is rejected by pandas' rolling-window
validation, so in that case the call raises instead of returning a frame. -/
def calculate_ehr999 (bars : List Bar) : Except String (List CalcRow) :=
  let N := bars.length
  let closes := bars.map (·.close)
  let ma200 := rollingMean (shortWindow N) closes
  if longWindow N < 0 then Except.error windowNegErr
  else
    let maLong := rollingMean (longWindow N).toNat closes
    let rows := (List.range N).map fun i =>
      ⟨(bars.getD i default).open_time, closes.getD i 0,
        ma200.getD i FVal.nan, maLong.getD i FVal.nan, ehrValue closes ma200 maLong i⟩
    Except.ok (rows.filter fun r => r.ehr999.notna)

/-- The chart points generate_html_chart serializes: one (time, value) pair
per row whose EHR999 passes pd.notna, open_time converted from epoch
milliseconds to epoch seconds. -/
def ehr999_data (rows : List CalcRow) : List (Int × FVal) :=
  (rows.filter fun r => r.ehr999.notna).map fun r => (r.open_time / 1000, r.ehr999)

/-- df.drop_duplicates(subset=['open_time']) with the default keep='first':
a row is kept exactly when its open_time has not been seen earlier. -/
def dropDuplicatesByOpenTime : List Bar → List Int → List Bar
  | [], _ => []
  | b :: rest, seen =>
    if b.open_time ∈ seen then dropDuplicatesByOpenTime rest seen
    else b :: dropDuplicatesByOpenTime rest (b.open_time :: seen)

/-- The tail of fetch_eth_klines: `if not all_data: return None`, otherwise
build the frame and deduplicate by open_time (no sort is applied). -/
def finishFetch (acc : List Bar) : Option (List Bar) :=
  if acc = [] then none else some (dropDuplicatesByOpenTime acc [])

/-- The pagination loop of fetch_eth_klines, driven by one scripted
response per request: either the decoded page or a raised transport/decode
error.  The loop breaks on an empty page or a page shorter than the
hard-coded limit of 1000; an exception makes the whole function return
None, discarding the accumulator.  An exhausted script corresponds to a
request that never returns; no theorem depends on that case. -/
def fetchLoop : List (Except String (List Bar)) → List Bar → Option (List Bar)
  | [], _ => none
  | Except.error _ :: _, _ => none
  | Except.ok page :: rest, acc =>
    if page = [] then finishFetch acc
    else
      if page.length < 1000 then finishFetch (acc ++ page)
      else fetchLoop rest (acc ++ page)

/-- fetch_eth_klines, shallowly embedded over the scripted responses. -/
def fetch_eth_klines (responses : List (Except String (List Bar))) : Option (List Bar) :=
  fetchLoop responses []

/-- All bars of all successfully decoded pages, in arrival order. -/
def joinOkPages (responses : List (Except String (List Bar))) : List Bar :=
  (responses.filterMap Except.toOption).flatten

/-- The __main__ driver: fetch; on None log and exit with no artifact;
otherwise run calculate_ehr999 (an exception aborts the process before any
write, and an empty result frame makes the iloc[-1] progress prints raise);
otherwise generate_html_chart writes index.html. -/
def mainRun (responses : List (Except String (List Bar))) : Option String :=
  match fetch_eth_klines responses with
  | none => none
  | some bars =>
    match calculate_ehr999 bars with
    | Except.error _ => none
    | Except.ok rows => if rows = [] then none else some "index.html"

/-- The header if/elif chain on latest_ehr999 (lines 168-195), as the index
of the band it selects. -/
def headerBand (v : ℚ) : Nat :=
  if v < 73/100 then 0
  else if v < 6/5 then 1
  else if v < 3/2 then 2
  else if v < 3 then 3
  else if v < 9/2 then 4
  else if v < 13/2 then 5
  else 6

/-- The (invest_multiplier, market_status) pair assigned by the same
if/elif chain. -/
def headerInfo (v : ℚ) : String × String :=
  if v < 73/100 then ("2.0x ~ 3.0x", "极度低估 (钻石坑)")
  else if v < 6/5 then ("1.5x", "相对低估 (黄金坑)")
  else if v < 3/2 then ("1.0x", "合理估值 (定投区)")
  else if v < 3 then ("0x (停止)", "持币待涨")
  else if v < 9/2 then ("减仓", "泡沫初现 (减仓区)")
  else if v < 13/2 then ("清仓50-80%", "极度泡沫 (清仓区)")
  else ("全部卖出", "疯狂顶部 (逃顶区)")

/-- The seven header configurations in band order, for relating the chain
to the band index it picks. -/
def headerTable : List (String × String) :=
  [("2.0x ~ 3.0x", "极度低估 (钻石坑)"),
   ("1.5x", "相对低估 (黄金坑)"),
   ("1.0x", "合理估值 (定投区)"),
   ("0x (停止)", "持币待涨"),
   ("减仓", "泡沫初现 (减仓区)"),
   ("清仓50-80%", "极度泡沫 (清仓区)"),
   ("全部卖出", "疯狂顶部 (逃顶区)")]

/-- The strategy-table row conditions (lines 384-432): row i carries the
current-row class exactly when its inline interval test on latest_ehr999
holds. -/
def rowIsCurrent (v : ℚ) : Nat → Bool
  | 0 => decide (v < 73/100)
  | 1 => decide (73/100 ≤ v) && decide (v < 6/5)
  | 2 => decide (6/5 ≤ v) && decide (v < 3/2)
  | 3 => decide (3/2 ≤ v) && decide (v < 3)
  | 4 => decide (3 ≤ v) && decide (v < 9/2)
  | 5 => decide (9/2 ≤ v) && decide (v < 13/2)
  | 6 => decide (13/2 ≤ v)
  | _ => false

/-- A DataFrame object as calculate_ehr999 sees it: the parsed bars plus
the indicator columns it may add. -/
structure PFrame where
  bars : List Bar
  ma200 : Option (List FVal)
  ma_long : Option (List FVal)
  ehr999 : Option (List FVal)
deriving DecidableEq, Repr

instance : Inhabited PFrame := ⟨⟨[], none, none, none⟩⟩

/-- In-place column assignment on the object store: mutate the frame at
index i. -/
def storeSet (store : List PFrame) (i : Nat) (f : PFrame → PFrame) : List PFrame :=
  store.set i (f (store.getD i default))

/-- Keep the entries of xs whose mask bit is true (row filtering). -/
def maskFilter {α : Type} (mask : List Bool) (xs : List α) : List α :=
  ((mask.zip xs).filter fun p => p.1).map fun p => p.2

/-- df.dropna(subset=['EHR999']) as a fresh frame: drop every row whose
EHR999 entry is NaN, aligning all columns. -/
def dropnaEHR (f : PFrame) : PFrame :=
  match f.ehr999 with
  | none => f
  | some e =>
    let mask := e.map fun v => v.notna
    ⟨maskFilter mask f.bars, f.ma200.map (maskFilter mask),
      f.ma_long.map (maskFilter mask), some (maskFilter mask e)⟩

/-- calculate_ehr999 at the object level, for the immutability claim: the
caller's frame lives in a store of DataFrame objects and is passed by
reference.  `df = df.copy()` allocates a fresh object; every subsequent
column assignment mutates that copy; `df = df.dropna(...)` rebinds the
local name to yet another fresh object.  The pair returned is the store
after the call together with the raised-or-returned result. -/
def calculate_ehr999_st (store : List PFrame) (r : Nat) :
    List PFrame × Except String Nat :=
  let dfIn := store.getD r default
  let c := store.length
  let store := store ++ [dfIn]
  let N := dfIn.bars.length
  let closes := dfIn.bars.map (·.close)
  let store := storeSet store c fun f => { f with ma200 := some (rollingMean (shortWindow N) closes) }
  if longWindow N < 0 then (store, Except.error windowNegErr)
  else
    let store := storeSet store c fun f =>
      { f with ma_long := some (rollingMean (longWindow N).toNat closes) }
    let store := storeSet store c fun f =>
      { f with ehr999 := some ((List.range N).map
          (ehrValue closes (rollingMean (shortWindow N) closes)
            (rollingMean (longWindow N).toNat closes))) }
    let c2 := store.length
    let store := store ++ [dropnaEHR (store.getD c default)]
    (store, Except.ok c2)

/-- A bar whose only distinguishing data is the closing price (helper for
concrete instances). -/
def closeBar (t : Int) (c : ℚ) : Bar := ⟨t, 0, 0, 0, c, 0⟩

/-- The close column of the C3 counterexample series: twenty bars, all
prices 1 except a -1,-1,-1,-1,4 stretch making the 5-bar mean at index 9
exactly zero while the close there is 4. -/
def cexCloses : List ℚ :=
  [1, 1, 1, 1, 1, -1, -1, -1, -1, 4, 1, 1, 1, 1, 1, 1, 1, 1, 1, 1]

/-- The C3 counterexample series. -/
def cexBars : List Bar :=
  (List.range 20).map fun (i : Nat) => closeBar (i : Int) (cexCloses.getD i 0)

/-- A five-bar series for the degenerate-window claims. -/
def cexBars5 : List Bar :=
  [closeBar 0 1, closeBar 1 2, closeBar 2 3, closeBar 3 4, closeBar 4 5]

/-- A full page of 1000 bars with distinct timestamps 0..999. -/
def stdPage : List Bar := (List.range 1000).map fun (n : Nat) => closeBar (n : Int) 1

/-- A twelve-bar constant series (enough history for the clamped windows
to be valid). -/
def bars12 : List Bar := List.replicate 12 (closeBar 0 1)

/-- The frame calculate_ehr999 returns on bars12. -/
def rows12 : List CalcRow := (calculate_ehr999 bars12).toOption.getD []

/-- A 250-bar constant-price series. -/
def bars250 : List Bar := List.replicate 250 (closeBar 0 2)

/-- Claim C1, counterexample: at N = 200 the window sizing yields
long_window = min(200 + 50, 200 - 10) = 190, strictly below
short_window = 200, so `long_window >= short_window` fails inside the
claimed range N ≥ 60. -/
theorem C1_counterexample : longWindow 200 < (shortWindow 200 : Int) := by decide

/-- Claim C1 (amended): for every series length N ≥ 60 outside the band
200 ≤ N ≤ 209, the adaptive window sizing satisfies
long_window ≥ short_window; in the excluded band the final clamp sets
long_window = N - 10 < 200 = short_window. -/
theorem C1_longWindow_ge_shortWindow (N : Nat) (h : 60 ≤ N)
    (hout : N < 200 ∨ 210 ≤ N) : (shortWindow N : Int) ≤ longWindow N := by
  unfold longWindow shortWindow maxLongWindow
  split_ifs <;> omega

theorem C1_longWindow_ge_shortWindow_witness :
    60 ≤ 211 ∧ (211 < 200 ∨ 210 ≤ 211) ∧ (shortWindow 211 : Int) ≤ longWindow 211 :=
  ⟨by norm_num, by norm_num,
    C1_longWindow_ge_shortWindow 211 (by norm_num) (by norm_num)⟩

/-- Claim C2, counterexample: on a five-bar series the long window comes
out as min(51, -5) = -5, pandas' rolling-window validation rejects it, and
calculate_ehr999 raises instead of returning an empty IndicatorPoint
sequence. -/
theorem C2_counterexample : calculate_ehr999 cexBars5 = Except.error windowNegErr := by
  unfold calculate_ehr999 cexBars5
  rw [if_pos (by decide)]

/-- Claim C2 (amended): for every series of length N = 5 the window-sizing
arithmetic yields the negative long window -5, and the Indicator Engine
raises pandas' window-validation error rather than returning an empty (or
any) IndicatorPoint sequence. -/
theorem C2_small_series_raises (bars : List Bar) (h : bars.length = 5) :
    calculate_ehr999 bars = Except.error windowNegErr := by
  unfold calculate_ehr999
  simp only [h]
  rw [if_pos (by decide)]

theorem C2_small_series_raises_witness :
    (List.replicate 5 (closeBar 0 1)).length = 5 ∧
      calculate_ehr999 (List.replicate 5 (closeBar 0 1)) = Except.error windowNegErr :=
  ⟨by simp, C2_small_series_raises _ (by simp)⟩

lemma headerBand_lt (v : ℚ) : headerBand v < 7 := by
  unfold headerBand
  split_ifs <;> norm_num

set_option maxHeartbeats 1600000 in
lemma rowIsCurrent_iff (v : ℚ) (i : Nat) :
    rowIsCurrent v i = true ↔ i = headerBand v := by
  unfold headerBand
  rcases i with _ | _ | _ | _ | _ | _ | _ | i <;>
    simp only [rowIsCurrent, Bool.and_eq_true, decide_eq_true_eq, Bool.false_eq_true,
      false_iff] <;>
    split_ifs <;>
    norm_num <;>
    first
      | linarith
      | (constructor <;> linarith)
      | (intro a ; linarith)

/-- Claim C4: for any finite oscillator value v ≥ 0 exactly one of the
seven bands matches (the interval tests are mutually exclusive and
exhaustive, the matching index being the one the ascending if/elif chain
selects); the boundary 0.73 falls in the second band (index 1, relatively
undervalued) and 6.5 in the top band (index 6). -/
theorem C4_classifier_bands :
    (∀ v : ℚ, 0 ≤ v → ∃! i : Nat, rowIsCurrent v i = true) ∧
      headerBand (73/100) = 1 ∧ headerBand (13/2) = 6 := by
  refine ⟨fun v _ =>
    ⟨headerBand v, (rowIsCurrent_iff v _).mpr rfl,
      fun j hj => (rowIsCurrent_iff v j).mp hj⟩, ?_, ?_⟩
  · unfold headerBand
    norm_num
  · unfold headerBand
    norm_num

theorem C4_classifier_bands_witness : ∃! i : Nat, rowIsCurrent 2 i = true :=
  C4_classifier_bands.1 2 (by norm_num)

lemma filter_range7_eq (n : Nat) (h : n < 7) :
    (List.range 7).filter (fun i => decide (i = n)) = [n] := by
  interval_cases n <;> decide

/-- Claim C10: for every finite latest oscillator value, the strategy
table highlights exactly one row — the row whose index is the band the
header's if/elif chain selects — and the header's investment multiplier
and market status are the entries of that same band. -/
theorem C10_header_table_agree (v : ℚ) :
    (List.range 7).filter (fun i => rowIsCurrent v i) = [headerBand v] ∧
      headerInfo v = headerTable.getD (headerBand v) ("", "") := by
  constructor
  · have hcong : ∀ i ∈ List.range 7, rowIsCurrent v i = decide (i = headerBand v) := by
      intro i _
      by_cases h : i = headerBand v
      · subst h
        simp [(rowIsCurrent_iff v (headerBand v)).mpr rfl]
      · rw [decide_eq_false h]
        cases hr : rowIsCurrent v i with
        | true => exact absurd ((rowIsCurrent_iff v i).mp hr) h
        | false => rfl
    rw [List.filter_congr hcong, filter_range7_eq _ (headerBand_lt v)]
  · unfold headerInfo headerBand headerTable
    split_ifs <;> rfl

lemma dropDuplicates_sublist (l : List Bar) (seen : List Int) :
    (dropDuplicatesByOpenTime l seen).Sublist l := by
  induction l generalizing seen with
  | nil => simp [dropDuplicatesByOpenTime]
  | cons b rest ih =>
    unfold dropDuplicatesByOpenTime
    split_ifs with h
    · exact (ih seen).cons b
    · exact (ih _).cons₂ b

lemma dropDuplicates_not_seen (l : List Bar) (seen : List Int) :
    ∀ b ∈ dropDuplicatesByOpenTime l seen, b.open_time ∉ seen := by
  induction l generalizing seen with
  | nil => simp [dropDuplicatesByOpenTime]
  | cons a rest ih =>
    unfold dropDuplicatesByOpenTime
    split_ifs with h
    · exact ih seen
    · intro b hb
      rcases List.mem_cons.mp hb with rfl | hb
      · exact h
      · intro hbs
        exact ih _ b hb (List.mem_cons_of_mem _ hbs)

lemma dropDuplicates_nodup (l : List Bar) (seen : List Int) :
    ((dropDuplicatesByOpenTime l seen).map (·.open_time)).Nodup := by
  induction l generalizing seen with
  | nil => simp [dropDuplicatesByOpenTime]
  | cons a rest ih =>
    unfold dropDuplicatesByOpenTime
    split_ifs with h
    · exact ih seen
    · simp only [List.map_cons, List.nodup_cons]
      refine ⟨?_, ih _⟩
      intro hmem
      rcases List.mem_map.mp hmem with ⟨b, hb, hbt⟩
      exact dropDuplicates_not_seen _ _ b hb (by simp [hbt])

lemma dropDuplicates_count_eq_zero (l : List Bar) (seen : List Int) (t : Int)
    (h : t ∈ seen) :
    ((dropDuplicatesByOpenTime l seen).map (·.open_time)).count t = 0 := by
  rw [List.count_eq_zero]
  intro hmem
  rcases List.mem_map.mp hmem with ⟨b, hb, rfl⟩
  exact dropDuplicates_not_seen l seen b hb h

lemma dropDuplicates_count_one (l : List Bar) (seen : List Int) (t : Int)
    (ht : t ∈ l.map (·.open_time)) (hs : t ∉ seen) :
    ((dropDuplicatesByOpenTime l seen).map (·.open_time)).count t = 1 := by
  induction l generalizing seen with
  | nil => simp at ht
  | cons a rest ih =>
    unfold dropDuplicatesByOpenTime
    split_ifs with h
    · have hta : t ≠ a.open_time := fun he => hs (he ▸ h)
      have htr : t ∈ rest.map (·.open_time) := by
        rcases List.mem_map.mp ht with ⟨b, hb, rfl⟩
        rcases List.mem_cons.mp hb with rfl | hb
        · exact absurd rfl hta
        · exact List.mem_map_of_mem _ hb
      exact ih seen htr hs
    · by_cases hta : t = a.open_time
      · subst hta
        simp only [List.map_cons, List.count_cons_self]
        rw [dropDuplicates_count_eq_zero _ _ _ (List.mem_cons_self _ _)]
      · simp only [List.map_cons, List.count_cons_of_ne hta]
        have htr : t ∈ rest.map (·.open_time) := by
          rcases List.mem_map.mp ht with ⟨b, hb, rfl⟩
          rcases List.mem_cons.mp hb with rfl | hb
          · exact absurd rfl hta
          · exact List.mem_map_of_mem _ hb
        refine ih _ htr ?_
        intro hc
        rcases List.mem_cons.mp hc with he | he
        · exact hta he
        · exact hs he

lemma dropDuplicates_find? (l : List Bar) (seen : List Int) (t : Int)
    (hs : t ∉ seen) :
    (dropDuplicatesByOpenTime l seen).find? (fun b => decide (b.open_time = t)) =
      l.find? (fun b => decide (b.open_time = t)) := by
  induction l generalizing seen with
  | nil => simp [dropDuplicatesByOpenTime]
  | cons a rest ih =>
    unfold dropDuplicatesByOpenTime
    split_ifs with h
    · have hta : ¬ a.open_time = t := fun he => hs (he ▸ h)
      rw [List.find?_cons_of_neg _ (by simpa using hta), ih seen hs]
    · by_cases hta : a.open_time = t
      · rw [List.find?_cons_of_pos _ (by simpa using hta),
          List.find?_cons_of_pos _ (by simpa using hta)]
      · rw [List.find?_cons_of_neg _ (by simpa using hta),
          List.find?_cons_of_neg _ (by simpa using hta)]
        refine ih _ ?_
        intro hc
        rcases List.mem_cons.mp hc with he | he
        · exact hta he.symm
        · exact hs he

lemma joinOkPages_cons_ok (page : List Bar) (rest : List (Except String (List Bar))) :
    joinOkPages (Except.ok page :: rest) = page ++ joinOkPages rest := by
  simp [joinOkPages, Except.toOption]

lemma fetchLoop_some_spec (responses : List (Except String (List Bar))) :
    ∀ acc bars, fetchLoop responses acc = some bars →
      ∃ ext, ext.Sublist (joinOkPages responses) ∧
        bars = dropDuplicatesByOpenTime (acc ++ ext) [] := by
  induction responses with
  | nil => intro acc bars h; simp [fetchLoop] at h
  | cons r rest ih =>
    intro acc bars h
    match r with
    | Except.error e => simp [fetchLoop] at h
    | Except.ok page =>
      unfold fetchLoop at h
      by_cases hpe : page = []
      · rw [if_pos hpe] at h
        unfold finishFetch at h
        by_cases hacc : acc = []
        · rw [if_pos hacc] at h
          exact absurd h (by simp)
        · rw [if_neg hacc] at h
          refine ⟨[], List.nil_sublist _, ?_⟩
          rw [List.append_nil]
          exact (Option.some.inj h).symm
      · rw [if_neg hpe] at h
        by_cases hlt : page.length < 1000
        · rw [if_pos hlt] at h
          unfold finishFetch at h
          rw [if_neg (by simp [hpe])] at h
          refine ⟨page, ?_, (Option.some.inj h).symm⟩
          rw [joinOkPages_cons_ok]
          exact List.sublist_append_left page _
        · rw [if_neg hlt] at h
          rcases ih _ _ h with ⟨ext, hsub, hb⟩
          refine ⟨page ++ ext, ?_, ?_⟩
          · rw [joinOkPages_cons_ok]
            exact List.Sublist.append (List.Sublist.refl page) hsub
          · rw [hb, List.append_assoc]

/-- Claim C5, counterexample: a single page whose bars arrive out of order
passes through deduplication untouched and is never sorted, so the
returned Series is not strictly increasing in open_time. -/
theorem C5_counterexample :
    ¬ List.Pairwise (fun (a b : Int) => a < b)
      (((fetch_eth_klines [Except.ok [closeBar 2 1, closeBar 1 1]]).getD []).map
        (·.open_time)) := by
  decide

/-- Claim C5 (amended): the Series returned by the Acquirer never contains
a duplicate open_time (deduplication keeps first occurrences), but no
defensive sort is applied: the Series is strictly increasing in open_time
provided the accumulated pages already arrive in non-decreasing
open_time order. -/
theorem C5_fetch_ordering (responses : List (Except String (List Bar)))
    (bars : List Bar) (h : fetch_eth_klines responses = some bars) :
    (bars.map (·.open_time)).Nodup ∧
      (List.Pairwise (· ≤ ·) ((joinOkPages responses).map (·.open_time)) →
        List.Pairwise (· < ·) (bars.map (·.open_time))) := by
  rcases fetchLoop_some_spec responses [] bars h with ⟨ext, hsub, hb⟩
  rw [List.nil_append] at hb
  subst hb
  refine ⟨dropDuplicates_nodup ext [], ?_⟩
  intro hpw
  have h1 : List.Pairwise (· ≤ ·) (ext.map (·.open_time)) :=
    hpw.sublist (hsub.map _)
  have h2 : List.Pairwise (· ≤ ·)
      ((dropDuplicatesByOpenTime ext []).map (·.open_time)) :=
    h1.sublist ((dropDuplicates_sublist ext []).map _)
  have h3 : List.Pairwise (fun a b => a ≠ b)
      ((dropDuplicatesByOpenTime ext []).map (·.open_time)) :=
    dropDuplicates_nodup ext []
  exact (h2.and h3).imp fun hab => lt_of_le_of_ne hab.1 hab.2

theorem C5_fetch_ordering_witness :
    (([closeBar 1 1, closeBar 2 1] : List Bar).map (·.open_time)).Nodup ∧
      (List.Pairwise (· ≤ ·)
          ((joinOkPages [Except.ok [closeBar 1 1, closeBar 2 1]]).map (·.open_time)) →
        List.Pairwise (· < ·)
          (([closeBar 1 1, closeBar 2 1] : List Bar).map (·.open_time))) :=
  C5_fetch_ordering [Except.ok [closeBar 1 1, closeBar 2 1]]
    [closeBar 1 1, closeBar 2 1] (by decide)

lemma stdPage_length : stdPage.length = 1000 := by
  unfold stdPage
  rw [List.length_map, List.length_range]

/-- Claim C6: feeding the Acquirer a full page followed by a terminating
page that overlaps it in one timestamp yields a Series in which that
timestamp occurs exactly once, and the surviving row is the first
occurrence — the row of the first page. -/
theorem C6_dedup_keeps_first (p1 p2 : List Bar) (t : Int)
    (h1 : p1.length = 1000) (h2 : p2 ≠ []) (h3 : p2.length < 1000)
    (ht1 : t ∈ p1.map (·.open_time)) (ht2 : t ∈ p2.map (·.open_time)) :
    fetch_eth_klines [Except.ok p1, Except.ok p2] =
        some (dropDuplicatesByOpenTime (p1 ++ p2) []) ∧
      ((dropDuplicatesByOpenTime (p1 ++ p2) []).map (·.open_time)).count t = 1 ∧
      (dropDuplicatesByOpenTime (p1 ++ p2) []).find?
          (fun b => decide (b.open_time = t)) =
        p1.find? (fun b => decide (b.open_time = t)) := by
  have hp1ne : p1 ≠ [] := by
    intro hc
    rw [hc] at h1
    simp at h1
  have hlen1 : ¬ p1.length < 1000 := by omega
  have happne : p1 ++ p2 ≠ [] := by simp [hp1ne]
  refine ⟨?_, ?_, ?_⟩
  · unfold fetch_eth_klines fetchLoop
    rw [if_neg hp1ne, if_neg hlen1, List.nil_append]
    unfold fetchLoop finishFetch
    rw [if_neg h2, if_pos h3, if_neg happne]
  · refine dropDuplicates_count_one (p1 ++ p2) [] t ?_ (by simp)
    rw [List.map_append]
    exact List.mem_append_left _ ht1
  · rw [dropDuplicates_find? _ _ _ (by simp)]
    have hsome : (p1.find? fun b => decide (b.open_time = t)).isSome := by
      rw [List.find?_isSome]
      rcases List.mem_map.mp ht1 with ⟨b, hb, rfl⟩
      exact ⟨b, hb, by simp⟩
    rcases Option.isSome_iff_exists.mp hsome with ⟨r, hr⟩
    rw [List.find?_append, hr]
    rfl

theorem C6_dedup_keeps_first_witness :
    fetch_eth_klines [Except.ok stdPage, Except.ok [closeBar 999 2]] =
        some (dropDuplicatesByOpenTime (stdPage ++ [closeBar 999 2]) []) ∧
      ((dropDuplicatesByOpenTime (stdPage ++ [closeBar 999 2]) []).map
          (·.open_time)).count 999 = 1 ∧
      (dropDuplicatesByOpenTime (stdPage ++ [closeBar 999 2]) []).find?
          (fun b => decide (b.open_time = 999)) =
        stdPage.find? (fun b => decide (b.open_time = 999)) :=
  C6_dedup_keeps_first stdPage [closeBar 999 2] 999 stdPage_length (by simp)
    (by simp)
    (by
      unfold stdPage
      rw [List.map_map]
      refine List.mem_map.mpr ⟨999, List.mem_range.mpr (by norm_num), ?_⟩
      rfl)
    (by simp [closeBar])

lemma fetchLoop_error_none (e : String) (rest : List (Except String (List Bar))) :
    ∀ okPages : List (List Bar), (∀ p ∈ okPages, p.length = 1000) →
      ∀ acc, fetchLoop (okPages.map Except.ok ++ Except.error e :: rest) acc = none := by
  intro okPages
  induction okPages with
  | nil => intro _ acc; rfl
  | cons p ps ih =>
    intro hlen acc
    have hp : p.length = 1000 := hlen p (List.mem_cons_self _ _)
    have hpne : p ≠ [] := by
      intro hc
      rw [hc] at hp
      simp at hp
    simp only [List.map_cons, List.cons_append]
    unfold fetchLoop
    rw [if_neg hpne, if_neg (by omega)]
    exact ih (fun q hq => hlen q (List.mem_cons_of_mem _ hq)) _

/-- Claim C7: if a page request raises while pages are still full, the
Acquirer discards everything accumulated so far and returns the no-data
sentinel None, and the driver then logs and exits without writing any
report artifact. -/
theorem C7_fetch_error_aborts (okPages : List (List Bar)) (e : String)
    (rest : List (Except String (List Bar)))
    (hlen : ∀ p ∈ okPages, p.length = 1000) :
    fetch_eth_klines (okPages.map Except.ok ++ Except.error e :: rest) = none ∧
      mainRun (okPages.map Except.ok ++ Except.error e :: rest) = none := by
  have h : fetch_eth_klines (okPages.map Except.ok ++ Except.error e :: rest) = none :=
    fetchLoop_error_none e rest okPages hlen []
  refine ⟨h, ?_⟩
  unfold mainRun
  rw [h]

theorem C7_fetch_error_aborts_witness :
    (∀ p ∈ [stdPage], p.length = 1000) ∧
      fetch_eth_klines ([stdPage].map Except.ok ++ Except.error "timeout" :: []) = none ∧
        mainRun ([stdPage].map Except.ok ++ Except.error "timeout" :: []) = none :=
  ⟨fun p hp => by rw [List.mem_singleton.mp hp]; exact stdPage_length,
    C7_fetch_error_aborts [stdPage] "timeout" []
      fun p hp => by rw [List.mem_singleton.mp hp]; exact stdPage_length⟩

lemma FVal.nan_mul (x : FVal) : FVal.nan.mul x = FVal.nan := by
  cases x <;> rfl

lemma FVal.mul_nan (x : FVal) : x.mul FVal.nan = FVal.nan := by
  cases x <;> rfl

lemma FVal.div_nan (x : FVal) : x.div FVal.nan = FVal.nan := by
  cases x <;> rfl

lemma rollingMean_length (w : Nat) (xs : List ℚ) :
    (rollingMean w xs).length = xs.length := by
  unfold rollingMean
  rw [List.length_map, List.length_range]

lemma windowSlice_sublist (w i : Nat) (xs : List ℚ) :
    (windowSlice w i xs).Sublist xs :=
  (List.drop_sublist _ _).trans (List.take_sublist _ _)

lemma windowSlice_length (w i : Nat) (xs : List ℚ) (hi : i < xs.length)
    (hw : w ≤ i + 1) : (windowSlice w i xs).length = w := by
  unfold windowSlice
  rw [List.length_drop, List.length_take]
  omega

lemma windowSlice_self_mem (w i : Nat) (xs : List ℚ) (hi : i < xs.length)
    (hw1 : w ≠ 0) (hw2 : w ≤ i + 1) : xs.getD i 0 ∈ windowSlice w i xs := by
  have hidx : (windowSlice w i xs)[w - 1]? = some (xs.getD i 0) := by
    unfold windowSlice
    rw [List.getElem?_drop]
    have he : i + 1 - w + (w - 1) = i := by omega
    rw [he, List.getElem?_take_of_lt (by omega), List.getElem?_eq_getElem hi,
      List.getD_eq_getElem?_getD, List.getElem?_eq_getElem hi]
    rfl
  have hlen : (windowSlice w i xs).length = w := windowSlice_length w i xs hi hw2
  have hlt : w - 1 < (windowSlice w i xs).length := by omega
  have hval : (windowSlice w i xs).getD (w - 1) 0 = xs.getD i 0 := by
    rw [List.getD_eq_getElem?_getD, hidx]
    rfl
  have hmem : (windowSlice w i xs).getD (w - 1) 0 ∈ windowSlice w i xs := by
    rw [List.getD_eq_getElem?_getD, List.getElem?_eq_getElem hlt]
    exact List.getElem_mem hlt
  rw [← hval]
  exact hmem

lemma rollingMean_getD (w : Nat) (xs : List ℚ) (i : Nat) (hi : i < xs.length) :
    (rollingMean w xs).getD i FVal.nan =
      if w = 0 ∨ i + 1 < w then FVal.nan
      else FVal.fin ((windowSlice w i xs).sum / (w : ℚ)) := by
  unfold rollingMean
  rw [List.getD_eq_getElem?_getD, List.getElem?_map, List.getElem?_range hi]
  rfl

lemma sum_zero_of_nonneg (l : List ℚ) (hnn : ∀ x ∈ l, 0 ≤ x) (hsum : l.sum = 0) :
    ∀ x ∈ l, x = 0 := by
  induction l with
  | nil => simp
  | cons a rest ih =>
    rw [List.sum_cons] at hsum
    have ha : 0 ≤ a := hnn a (List.mem_cons_self _ _)
    have hr : 0 ≤ rest.sum :=
      List.sum_nonneg fun x hx => hnn x (List.mem_cons_of_mem _ hx)
    intro x hx
    rcases List.mem_cons.mp hx with rfl | hx
    · linarith
    · exact ih (fun y hy => hnn y (List.mem_cons_of_mem _ hy)) (by linarith) x hx

lemma sum_const_list (l : List ℚ) (P : ℚ) (h : ∀ x ∈ l, x = P) :
    l.sum = l.length * P := by
  induction l with
  | nil => simp
  | cons a rest ih =>
    rw [List.sum_cons, List.length_cons, h a (List.mem_cons_self _ _),
      ih fun x hx => h x (List.mem_cons_of_mem _ hx)]
    push_cast
    ring

lemma rollingMean_const (w : Nat) (xs : List ℚ) (P : ℚ) (hc : ∀ x ∈ xs, x = P) :
    ∀ m ∈ rollingMean w xs, m ≠ FVal.nan → m = FVal.fin P := by
  intro m hm hne
  unfold rollingMean at hm
  rcases List.mem_map.mp hm with ⟨i, hir, rfl⟩
  by_cases hw0 : w = 0 ∨ i + 1 < w
  · rw [if_pos hw0] at hne
    exact absurd rfl hne
  · rw [if_neg hw0]
    have hw1 : w ≠ 0 := fun h => hw0 (Or.inl h)
    have hw2 : w ≤ i + 1 := by
      rcases Nat.lt_or_ge (i + 1) w with h | h
      · exact absurd (Or.inr h) hw0
      · exact h
    have hi : i < xs.length := List.mem_range.mp hir
    have hslice : ∀ x ∈ windowSlice w i xs, x = P := fun x hx =>
      hc x ((windowSlice_sublist w i xs).subset hx)
    rw [sum_const_list _ P hslice, windowSlice_length w i xs hi hw2]
    congr 1
    rw [mul_comm, mul_div_assoc, div_self (Nat.cast_ne_zero.mpr hw1), mul_one]

lemma rollingMean_getD_cases (w : Nat) (xs : List ℚ) (i : Nat) (hi : i < xs.length)
    (hnn : ∀ x ∈ xs, 0 ≤ x) :
    (rollingMean w xs).getD i FVal.nan = FVal.nan ∨
      ∃ q : ℚ, (rollingMean w xs).getD i FVal.nan = FVal.fin q ∧
        (q = 0 → xs.getD i 0 = 0) := by
  rw [rollingMean_getD w xs i hi]
  by_cases hcond : w = 0 ∨ i + 1 < w
  · left
    rw [if_pos hcond]
  · right
    have hw1 : w ≠ 0 := fun h => hcond (Or.inl h)
    have hw2 : w ≤ i + 1 := by
      rcases Nat.lt_or_ge (i + 1) w with h | h
      · exact absurd (Or.inr h) hcond
      · exact h
    refine ⟨_, by rw [if_neg hcond], ?_⟩
    intro hq0
    have hsum0 : (windowSlice w i xs).sum = 0 := by
      rcases div_eq_zero_iff.mp hq0 with h | h
      · exact h
      · exact absurd (Nat.cast_eq_zero.mp h) hw1
    have hall := sum_zero_of_nonneg _
      (fun x hx => hnn x ((windowSlice_sublist w i xs).subset hx)) hsum0
    exact hall _ (windowSlice_self_mem w i xs hi hw1 hw2)

lemma closes_nonneg (bars : List Bar) (hnn : ∀ b ∈ bars, 0 ≤ b.close) :
    ∀ x ∈ bars.map (·.close), 0 ≤ x := by
  intro x hx
  rcases List.mem_map.mp hx with ⟨b, hb, rfl⟩
  exact hnn b hb

lemma ehrValue_finite (bars : List Bar) (w1 w2 i : Nat) (hi : i < bars.length)
    (hnn : ∀ b ∈ bars, 0 ≤ b.close)
    (hne : (ehrValue (bars.map (·.close)) (rollingMean w1 (bars.map (·.close)))
        (rollingMean w2 (bars.map (·.close))) i).notna = true) :
    (ehrValue (bars.map (·.close)) (rollingMean w1 (bars.map (·.close)))
        (rollingMean w2 (bars.map (·.close))) i).isFinite = true := by
  have hlen : i < (bars.map (·.close)).length := by
    rw [List.length_map]
    exact hi
  have hclnn := closes_nonneg bars hnn
  rcases rollingMean_getD_cases w1 (bars.map (·.close)) i hlen hclnn with
    hm1 | ⟨q1, hm1, hq1⟩
  · unfold ehrValue at hne
    rw [hm1, FVal.div_nan, FVal.nan_mul] at hne
    simp [FVal.notna] at hne
  · rcases rollingMean_getD_cases w2 (bars.map (·.close)) i hlen hclnn with
      hm2 | ⟨q2, hm2, hq2⟩
    · unfold ehrValue at hne
      rw [hm2, FVal.div_nan, FVal.mul_nan] at hne
      simp [FVal.notna] at hne
    · by_cases hq10 : q1 = 0
      · have hc0 : (bars.map (·.close)).getD i 0 = 0 := hq1 hq10
        unfold ehrValue at hne
        rw [hm1, hc0, hq10] at hne
        simp [FVal.div, FVal.nan_mul, FVal.notna] at hne
      · by_cases hq20 : q2 = 0
        · have hc0 : (bars.map (·.close)).getD i 0 = 0 := hq2 hq20
          unfold ehrValue at hne
          rw [hm1, hm2, hc0, hq20] at hne
          simp [FVal.div, FVal.mul, FVal.mul_nan, FVal.notna, hq10] at hne
        · unfold ehrValue
          rw [hm1, hm2]
          simp [FVal.div, FVal.mul, FVal.isFinite, hq10, hq20]

lemma calculate_ehr999_eq (bars : List Bar) (h : ¬ longWindow bars.length < 0) :
    calculate_ehr999 bars = Except.ok
      (((List.range bars.length).map fun i =>
          (⟨(bars.getD i default).open_time, (bars.map (·.close)).getD i 0,
            (rollingMean (shortWindow bars.length) (bars.map (·.close))).getD i FVal.nan,
            (rollingMean (longWindow bars.length).toNat (bars.map (·.close))).getD i
              FVal.nan,
            ehrValue (bars.map (·.close))
              (rollingMean (shortWindow bars.length) (bars.map (·.close)))
              (rollingMean (longWindow bars.length).toNat (bars.map (·.close))) i⟩ :
            CalcRow)).filter fun r => r.ehr999.notna) := by
  simp only [calculate_ehr999]
  rw [if_neg h]

/-- Claim C3, counterexample: on a series containing a negative close, the
five-bar mean at index 9 is exactly zero while the close there is 4, so
the oscillator is +inf; dropna and pd.notna only remove NaN, so the
serialized output contains a non-finite value. -/
theorem C3_counterexample :
    (ehr999_data ((calculate_ehr999 cexBars).toOption.getD [])).any
      (fun p => !p.2.isFinite) = true := by
  norm_num [cexBars, closeBar, cexCloses, calculate_ehr999, rollingMean, windowSlice,
    ehrValue, ehr999_data, shortWindow, longWindow, maxLongWindow, FVal.div, FVal.mul,
    FVal.notna, FVal.isFinite, List.range_succ, Except.toOption]

/-- Claim C3 (amended): for every input series whose closes are all
nonnegative (prices), the Indicator Engine's successful output contains
only rows with a finite, defined oscillator value — a zero moving average
then forces a zero close and a NaN that dropna removes — and row order is
a subsequence of the input order.  (Without the nonnegativity restriction
a zero mean with a nonzero close yields +inf, which is kept.) -/
theorem C3_finite_points (bars : List Bar) (rows : List CalcRow)
    (hnn : ∀ b ∈ bars, 0 ≤ b.close)
    (hok : calculate_ehr999 bars = Except.ok rows) :
    (∀ p ∈ ehr999_data rows, p.2.isFinite = true) ∧
      (rows.map (·.open_time)).Sublist (bars.map (·.open_time)) := by
  by_cases hlw : longWindow bars.length < 0
  · exfalso
    simp only [calculate_ehr999] at hok
    rw [if_pos hlw] at hok
    exact Except.noConfusion hok
  · have heq := calculate_ehr999_eq bars hlw
    rw [hok] at heq
    have hrows := Except.ok.inj heq
    subst hrows
    constructor
    · intro p hp
      unfold ehr999_data at hp
      rcases List.mem_map.mp hp with ⟨r, hr, rfl⟩
      obtain ⟨hrmem, hnotna⟩ := List.mem_filter.mp hr
      obtain ⟨hrmap, _⟩ := List.mem_filter.mp hrmem
      rcases List.mem_map.mp hrmap with ⟨i, hir, rfl⟩
      exact ehrValue_finite bars (shortWindow bars.length)
        (longWindow bars.length).toNat i (List.mem_range.mp hir) hnn hnotna
    · have hmapeq : (((List.range bars.length).map fun i =>
          (⟨(bars.getD i default).open_time, (bars.map (·.close)).getD i 0,
            (rollingMean (shortWindow bars.length) (bars.map (·.close))).getD i FVal.nan,
            (rollingMean (longWindow bars.length).toNat (bars.map (·.close))).getD i
              FVal.nan,
            ehrValue (bars.map (·.close))
              (rollingMean (shortWindow bars.length) (bars.map (·.close)))
              (rollingMean (longWindow bars.length).toNat (bars.map (·.close))) i⟩ :
            CalcRow)).map (·.open_time)) = bars.map (·.open_time) := by
        rw [List.map_map]
        apply List.ext_getElem
        · rw [List.length_map, List.length_range, List.length_map]
        · intro n h1 h2
          have hn : n < bars.length := by
            rw [List.length_map, List.length_range] at h1
            exact h1
          simp only [List.getElem_map, List.getElem_range, Function.comp]
          rw [List.getD_eq_getElem?_getD, List.getElem?_eq_getElem hn]
          rfl
      rw [← hmapeq]
      exact List.Sublist.map _ (List.filter_sublist _)

lemma rows12_ok : calculate_ehr999 bars12 = Except.ok rows12 := by
  unfold rows12
  rw [calculate_ehr999_eq bars12 (by decide)]
  rfl

theorem C3_finite_points_witness :
    (∀ p ∈ ehr999_data rows12, p.2.isFinite = true) ∧
      (rows12.map (·.open_time)).Sublist (bars12.map (·.open_time)) :=
  C3_finite_points bars12 rows12
    (fun b hb => by rw [List.eq_of_mem_replicate hb]; norm_num [closeBar])
    rows12_ok

lemma longWindow_nonneg (N : Nat) (h : 10 ≤ N) : ¬ longWindow N < 0 := by
  unfold longWindow shortWindow maxLongWindow
  split_ifs <;> omega

/-- Claim C8: on a constant-price series of length at least 250 the
adaptive windows are valid, both moving averages equal the price P at
every index where they are defined, and every surviving output row carries
the oscillator value exactly 1 (for P = 0 every row is NaN and the output
is empty, so the claim holds vacuously there). -/
theorem C8_constant_series (bars : List Bar) (P : ℚ) (hN : 250 ≤ bars.length)
    (hconst : ∀ b ∈ bars, b.close = P) :
    ∃ rows, calculate_ehr999 bars = Except.ok rows ∧
      (∀ m ∈ rollingMean (shortWindow bars.length) (bars.map (·.close)),
        m ≠ FVal.nan → m = FVal.fin P) ∧
      (∀ m ∈ rollingMean (longWindow bars.length).toNat (bars.map (·.close)),
        m ≠ FVal.nan → m = FVal.fin P) ∧
      ∀ r ∈ rows, r.ehr999 = FVal.fin 1 := by
  have hlw := longWindow_nonneg bars.length (by omega)
  have hcl : ∀ x ∈ bars.map (·.close), x = P := by
    intro x hx
    rcases List.mem_map.mp hx with ⟨b, hb, rfl⟩
    exact hconst b hb
  refine ⟨_, calculate_ehr999_eq bars hlw,
    rollingMean_const _ _ P hcl, rollingMean_const _ _ P hcl, ?_⟩
  intro r hr
  obtain ⟨hrmap, hnotna⟩ := List.mem_filter.mp hr
  rcases List.mem_map.mp hrmap with ⟨i, hir, rfl⟩
  have hi : i < bars.length := List.mem_range.mp hir
  have hlen : i < (bars.map (·.close)).length := by
    rw [List.length_map]
    exact hi
  have hcget : (bars.map (·.close)).getD i 0 = P := by
    have hmem : (bars.map (·.close)).getD i 0 ∈ bars.map (·.close) := by
      rw [List.getD_eq_getElem?_getD, List.getElem?_eq_getElem hlen]
      exact List.getElem_mem hlen
    exact hcl _ hmem
  have hm1mem : (rollingMean (shortWindow bars.length) (bars.map (·.close))).getD i
      FVal.nan ∈ rollingMean (shortWindow bars.length) (bars.map (·.close)) := by
    have hl : i < (rollingMean (shortWindow bars.length) (bars.map (·.close))).length := by
      rw [rollingMean_length, List.length_map]
      exact hi
    rw [List.getD_eq_getElem?_getD, List.getElem?_eq_getElem hl]
    exact List.getElem_mem hl
  have hm2mem : (rollingMean (longWindow bars.length).toNat (bars.map (·.close))).getD i
      FVal.nan ∈ rollingMean (longWindow bars.length).toNat (bars.map (·.close)) := by
    have hl : i <
        (rollingMean (longWindow bars.length).toNat (bars.map (·.close))).length := by
      rw [rollingMean_length, List.length_map]
      exact hi
    rw [List.getD_eq_getElem?_getD, List.getElem?_eq_getElem hl]
    exact List.getElem_mem hl
  show (ehrValue (bars.map (·.close))
      (rollingMean (shortWindow bars.length) (bars.map (·.close)))
      (rollingMean (longWindow bars.length).toNat (bars.map (·.close))) i) = FVal.fin 1
  have hnotna' : (ehrValue (bars.map (·.close))
      (rollingMean (shortWindow bars.length) (bars.map (·.close)))
      (rollingMean (longWindow bars.length).toNat (bars.map (·.close))) i).notna =
      true := hnotna
  by_cases hm1 : (rollingMean (shortWindow bars.length) (bars.map (·.close))).getD i
      FVal.nan = FVal.nan
  · exfalso
    unfold ehrValue at hnotna'
    rw [hm1, FVal.div_nan, FVal.nan_mul] at hnotna'
    simp [FVal.notna] at hnotna'
  · by_cases hm2 : (rollingMean (longWindow bars.length).toNat
        (bars.map (·.close))).getD i FVal.nan = FVal.nan
    · exfalso
      unfold ehrValue at hnotna'
      rw [hm2, FVal.div_nan, FVal.mul_nan] at hnotna'
      simp [FVal.notna] at hnotna'
    · have he1 := rollingMean_const _ _ P hcl _ hm1mem hm1
      have he2 := rollingMean_const _ _ P hcl _ hm2mem hm2
      by_cases hP : P = 0
      · exfalso
        unfold ehrValue at hnotna'
        rw [he1, hcget, hP] at hnotna'
        simp [FVal.div, FVal.nan_mul, FVal.notna] at hnotna'
      · unfold ehrValue
        rw [he1, he2, hcget]
        simp [FVal.div, FVal.mul, hP, div_self hP]

theorem C8_constant_series_witness :
    ∃ rows, calculate_ehr999 bars250 = Except.ok rows ∧
      (∀ m ∈ rollingMean (shortWindow bars250.length) (bars250.map (·.close)),
        m ≠ FVal.nan → m = FVal.fin 2) ∧
      (∀ m ∈ rollingMean (longWindow bars250.length).toNat (bars250.map (·.close)),
        m ≠ FVal.nan → m = FVal.fin 2) ∧
      ∀ r ∈ rows, r.ehr999 = FVal.fin 1 :=
  C8_constant_series bars250 2 (by rw [bars250, List.length_replicate])
    fun b hb => by rw [List.eq_of_mem_replicate hb]; rfl

/-- Claim C9: calculate_ehr999 consumes its argument immutably — it copies
the frame first and mutates only the copy, so after the call (whether it
returns or raises) the caller's DataFrame object is unchanged in the
store. -/
theorem C9_input_frame_unchanged (store : List PFrame) (r : Nat)
    (hr : r < store.length) :
    ((calculate_ehr999_st store r).1)[r]? = store[r]? := by
  simp only [calculate_ehr999_st, storeSet]
  split_ifs with h
  · rw [List.getElem?_set_ne (by omega), List.getElem?_append_left hr]
  · rw [List.getElem?_append_left (by simp; omega),
      List.getElem?_set_ne (by omega), List.getElem?_set_ne (by omega),
      List.getElem?_set_ne (by omega), List.getElem?_append_left hr]

theorem C9_input_frame_unchanged_witness :
    ((calculate_ehr999_st [⟨[closeBar 0 1], none, none, none⟩] 0).1)[0]? =
      [(⟨[closeBar 0 1], none, none, none⟩ : PFrame)][0]? :=
  C9_input_frame_unchanged [⟨[closeBar 0 1], none, none, none⟩] 0 (by norm_num)
